import Mathlib

/-!
Verification of the threads-affiliate-bot repository: a shallow embedding of
the two scripts `bot/scripts/post_to_threads.py` (the Publisher) and
`bot/scripts/log_insights.py` (the Insight Logger), together with theorems
about the claims of the specification.

Remote calls (Threads API create/publish, spreadsheet updates) are modelled
as oracles: a function from the call index to the call's outcome.  The
Publisher's run is represented as the list of externally visible events it
performs, in order, plus its exit code.
-/

/-- An externally visible action of the Publisher.
`create text replyTo` is a call of `create_media_container` with the given
text and `reply_to_id`; `sleep n` is `time.sleep(n)`; `publish cid` is a call
of `publish_media_container` with `creation_id = cid`; `statusUpdate s tid`
is a call of `update_post_status` with status `s` and optional
`threads_post_id`. -/
inductive Event where
  | create (text : String) (replyTo : Option String)
  | sleep (n : Nat)
  | publish (containerId : String)
  | statusUpdate (status : String) (threadsPostId : Option String)
  deriving DecidableEq, Repr

/-- A row of the Ready_To_Post worksheet as read by the Publisher: the four
block-content columns `Block_1_Content` .. `Block_4_Content`
(`post_data.get(..., "")` defaults a missing column to the empty string). -/
structure PostRow where
  block1 : String
  block2 : String
  block3 : String
  block4 : String
  deriving DecidableEq, Repr

/-- The four block contents in column order, from the list comprehension
`[post_data.get(f"Block_i_Content", "").strip() for i in range(1, 5)]`
before the truthiness filter. -/
def rawBlocks (row : PostRow) : List String :=
  [row.block1, row.block2, row.block3, row.block4]

/-- Whitespace as removed by Python's `str.strip()`. -/
def isBlankChar (c : Char) : Bool :=
  c = ' ' || c = '\t' || c = '\n' || c = '\r'

/-- Python's `str.strip()`: leading and trailing whitespace removed. -/
def pyStrip (s : String) : String :=
  ⟨((s.data.dropWhile isBlankChar).reverse.dropWhile isBlankChar).reverse⟩

/-- `post_blocks_arg`: each block stripped, then blank blocks removed
(`[block for block in post_blocks_arg if block]`). -/
def cleanBlocks (row : PostRow) : List String :=
  ((rawBlocks row).map pyStrip).filter (fun b => !b.isEmpty)

/-- The posting loop of the Publisher's `__main__` (`for i, block_content in
enumerate(post_blocks_arg)`).  `cr k` is the result of the create call for
block `k` (`None` for a failed creation), `pr k` the result of the publish
call for block `k`.  Returns the events performed, the final `root_post_id`,
and `true` unless the loop hit a `sys.exit(1)`. -/
def postingLoop (cr pr : Nat → Option String) :
    List String → Nat → Option String → Option String →
      List Event × Option String × Bool
  | [], _, _, root => ([], root, true)
  | b :: rest, i, last, root =>
    match cr i with
    | some containerId =>
      let delay := if i = 0 then 30 else 10
      match pr i with
      | some publishedId =>
        let root' := if i = 0 then some publishedId else root
        let r := postingLoop cr pr rest (i + 1) (some publishedId) root'
        (Event.create b last :: Event.sleep delay :: Event.publish containerId :: r.1,
         r.2)
      | none =>
        ([Event.create b last, Event.sleep delay, Event.publish containerId,
          Event.statusUpdate "Error" none], root, false)
    | none =>
      ([Event.create b last, Event.statusUpdate "Error" none], root, false)

/-- Result of one Publisher run: the events performed, the process exit code,
and the root post identifier it reports on success. -/
structure PubResult where
  events : List Event
  exitCode : Nat
  rootPostId : Option String
  deriving DecidableEq, Repr

/-- The Publisher's `__main__` from block extraction onward: filter the
blocks, abort with an `Error` status write and exit code 1 when none remain,
otherwise write `Posting`, run the chain, and on full success write `Posted`
with the root identifier and exit 0. -/
def publisherMain (cr pr : Nat → Option String) (row : PostRow) : PubResult :=
  let blocks := cleanBlocks row
  if blocks.isEmpty then
    ⟨[Event.statusUpdate "Error" none], 1, none⟩
  else
    let r := postingLoop cr pr blocks 0 none none
    if r.2.2 then
      match r.2.1 with
      | some rootId =>
        ⟨Event.statusUpdate "Posting" none ::
           r.1 ++ [Event.statusUpdate "Posted" (some rootId)], 0, some rootId⟩
      | none => ⟨Event.statusUpdate "Posting" none :: r.1, 1, none⟩
    else
      ⟨Event.statusUpdate "Posting" none :: r.1, 1, none⟩

/-- The create calls of a trace, each with its text and `reply_to_id`. -/
def createCalls (evs : List Event) : List (String × Option String) :=
  evs.filterMap fun e =>
    match e with
    | Event.create t r => some (t, r)
    | _ => none

/-- The publish calls of a trace, each with its `creation_id`. -/
def publishCalls (evs : List Event) : List String :=
  evs.filterMap fun e =>
    match e with
    | Event.publish cid => some cid
    | _ => none

/-- The status values written by the `update_post_status` calls of a trace. -/
def statusWrites (evs : List Event) : List String :=
  evs.filterMap fun e =>
    match e with
    | Event.statusUpdate s _ => some s
    | _ => none

/-- The sleep durations of a trace, in order. -/
def sleeps (evs : List Event) : List Nat :=
  evs.filterMap fun e =>
    match e with
    | Event.sleep n => some n
    | _ => none

/-- The `update_post_status` error conditions: whether `worksheet.find` finds
the `post_id` cell, whether the header row has a `Status` column, and whether
any of the spreadsheet calls raises. -/
structure SheetCond where
  findOk : Bool
  hasStatusCol : Bool
  updateRaises : Bool
  deriving DecidableEq, Repr

/-- `update_post_status`: returns `true` on success; on any error — an
exception anywhere in the body, the `post_id` cell not found, or a missing
`Status` column — it prints and returns `false` instead of raising. -/
def update_post_status (sh : SheetCond) : Bool :=
  if sh.updateRaises then false
  else if sh.findOk then
    if sh.hasStatusCol then true else false
  else false

/-- The status writes that actually land on the sheet: the `k`-th
`update_post_status` call of a run takes effect exactly when it succeeds on
the sheet conditions `upd k`. -/
def appliedWrites (upd : Nat → SheetCond) (writes : List String) : List String :=
  (writes.enum.filter (fun kw => update_post_status (upd kw.1))).map Prod.snd

/-- A Publisher run together with the status values that actually landed on
the sheet.  The caller of `update_post_status` never inspects its return
value, so `result` is computed without consulting `upd`. -/
structure PubRunFull where
  result : PubResult
  applied : List String
  deriving DecidableEq, Repr

/-- The Publisher's `__main__` including the fate of its status updates:
`upd k` gives the sheet conditions at the `k`-th `update_post_status` call. -/
def publisherMainU (cr pr : Nat → Option String) (upd : Nat → SheetCond)
    (row : PostRow) : PubRunFull :=
  let r := publisherMain cr pr row
  ⟨r, appliedWrites upd (statusWrites r.events)⟩

/-!  The Insight Logger (`log_insights.py`). -/

/-- One element of the `data` array of an insights response.  `values` models
the optional `"values"` key (a time series; each sample's `"value"` key may be
absent, modelled by `Option Nat`); `total_value` models the optional
`"total_value"` key (whose own `"value"` key may be absent). -/
structure MetricEntry where
  name : String
  values : Option (List (Option Nat))
  total_value : Option (Option Nat)
  deriving DecidableEq, Repr

/-- The JSON body of an insights response: the `"data"` key may be absent. -/
structure InsightsResponse where
  data : Option (List MetricEntry)
  deriving DecidableEq, Repr

/-- The per-entry extraction of `get_post_insights`:
`views` with a non-empty time series takes `values[-1].get("value", 0)`;
`likes`/`replies` with `total_value` present take
`total_value.get("value", 0)`; `likes`/`replies` with no `total_value` but a
non-empty time series take `sum(item.get("value", 0) for item in values)`;
every other entry is skipped. -/
def extractEntry (e : MetricEntry) : Option Nat :=
  if e.name = "views" then
    match e.values with
    | some vs =>
      match vs.getLast? with
      | some ov => some (ov.getD 0)
      | none => none
    | none => none
  else if e.name = "likes" ∨ e.name = "replies" then
    match e.total_value with
    | some tv => some (tv.getD 0)
    | none =>
      match e.values with
      | some vs =>
        if vs.isEmpty then none
        else some ((vs.map (fun ov => ov.getD 0)).sum)
      | none => none
  else none

/-- Assignment `d[k] = v` on a Python dict modelled as an association list:
replace the first binding of `k`, or append a new one. -/
def dictSet : List (String × Nat) → String → Nat → List (String × Nat)
  | [], k, v => [(k, v)]
  | (k', v') :: d, k, v =>
    if k' = k then (k, v) :: d else (k', v') :: dictSet d k v

/-- `insights.get(k, 0)`: lookup with default 0 (used to build `data_row`). -/
def dictGetD (d : List (String × Nat)) (k : String) : Nat :=
  (d.lookup k).getD 0

/-- The parsing loop of `get_post_insights`: `parsed_insights` starts empty
and each entry of the `data` array (absent `data` contributes nothing) whose
extraction applies assigns `parsed_insights[name]`. -/
def parseInsights (resp : InsightsResponse) : List (String × Nat) :=
  match resp.data with
  | none => []
  | some entries =>
    entries.foldl
      (fun d e =>
        match extractEntry e with
        | some v => dictSet d e.name v
        | none => d)
      []

/-- `get_post_insights` at the level of the whole HTTP exchange: `fetch` is
`none` when the request raises (network error or non-success HTTP status, the
`except` branches returning `None`), otherwise the parsed response body. -/
def get_post_insights (fetch : Option InsightsResponse) :
    Option (List (String × Nat)) :=
  fetch.map parseInsights

/-- A spreadsheet cell of an appended log row. -/
inductive Cell where
  | str (s : String)
  | nat (n : Nat)
  deriving DecidableEq, Repr

/-- The single captured timestamp `now = datetime.datetime.now()`, carrying
its two renderings `now.strftime("%Y-%m-%d")` and `now.strftime("%H:%M:%S")`. -/
structure Timestamp where
  date : String
  time : String
  deriving DecidableEq, Repr

/-- `data_row` of the Insight Logger `__main__`: identifier, account,
content, the three metrics with default 0, then the date and time rendered
from the one captured timestamp. -/
def data_row (postId account content : String)
    (insights : List (String × Nat)) (now : Timestamp) : List Cell :=
  [Cell.str postId, Cell.str account, Cell.str content,
   Cell.nat (dictGetD insights "views"),
   Cell.nat (dictGetD insights "likes"),
   Cell.nat (dictGetD insights "replies"),
   Cell.str now.date, Cell.str now.time]

/-- Result of one Insight Logger run: the rows appended to the log sheet and
the process exit code. -/
structure LogResult where
  appendedRows : List (List Cell)
  exitCode : Nat
  deriving DecidableEq, Repr

/-- The Insight Logger's `__main__` from the fetch onward.  `clientOk`,
`sheetOk`, `wsOk` are the outcomes of authenticating, opening the sheet and
getting/creating the worksheet; `appendOk` is whether `append_row` succeeds —
`log_to_google_sheet` swallows an `append_row` exception, so the run still
exits 0 when it fails.  A fetch returning `None` or an empty dict
(`if insights:` falsy) appends nothing and exits 1. -/
def loggerMain (fetch : Option InsightsResponse) (now : Timestamp)
    (postId account content : String)
    (clientOk sheetOk wsOk appendOk : Bool) : LogResult :=
  match get_post_insights fetch with
  | none => ⟨[], 1⟩
  | some insights =>
    if insights.isEmpty then ⟨[], 1⟩
    else
      if clientOk then
        if sheetOk then
          if wsOk then
            ⟨if appendOk then [data_row postId account content insights now]
              else [], 0⟩
          else ⟨[], 1⟩
        else ⟨[], 1⟩
      else ⟨[], 1⟩

/-- A status-transition step allowed by the spec's invariant
`ready → posting → (posted | error)` (spec wording, for comparison with the
write sequences the code produces). -/
def allowedStatusStep (a b : String) : Bool :=
  (a == "Ready" && b == "Posting") || (a == "Posting" && b == "Posted") ||
    (a == "Posting" && b == "Error")

/-- Whether a sequence of status writes, starting from the given current
status, only ever moves along allowed transitions (spec wording, for
comparison with the write sequences the code produces). -/
def forwardOnly : String → List String → Bool
  | _, [] => true
  | prev, w :: ws => allowedStatusStep prev w && forwardOnly w ws

/-- Sheet conditions under which every `update_post_status` call raises, so
no status write ever lands. -/
def noUpd : Nat → SheetCond := fun _ => ⟨true, true, true⟩

/-- The spec's example insights response: a `views` time series
`[{value:5},{value:12}]`, a `likes` aggregate `{value:3}`, and no `replies`
entry. -/
def exampleResp : InsightsResponse :=
  ⟨some [⟨"views", some [some 5, some 12], none⟩,
         ⟨"likes", none, some (some 3)⟩]⟩

/-- A response reporting `likes` only as a time series
`[{value:5},{value:12}]`, with no aggregate. -/
def likesSeriesResp : InsightsResponse :=
  ⟨some [⟨"likes", some [some 5, some 12], none⟩]⟩

/-!  Helper lemmas about the posting loop's trace. -/

/-- The trace of the posting loop when every create and publish call
succeeds: `c k` is the container id returned for block `k`, `p k` the
published id. -/
def okTrace (c p : Nat → String) : List String → Nat → Option String → List Event
  | [], _, _ => []
  | b :: rest, i, last =>
    Event.create b last :: Event.sleep (if i = 0 then 30 else 10) ::
      Event.publish (c i) :: okTrace c p rest (i + 1) (some (p i))

theorem createCalls_cons_create (t : String) (r : Option String) (evs : List Event) :
    createCalls (Event.create t r :: evs) = (t, r) :: createCalls evs := rfl

theorem createCalls_cons_sleep (n : Nat) (evs : List Event) :
    createCalls (Event.sleep n :: evs) = createCalls evs := rfl

theorem createCalls_cons_publish (cid : String) (evs : List Event) :
    createCalls (Event.publish cid :: evs) = createCalls evs := rfl

theorem createCalls_cons_status (s : String) (t : Option String) (evs : List Event) :
    createCalls (Event.statusUpdate s t :: evs) = createCalls evs := rfl

theorem publishCalls_cons_create (t : String) (r : Option String) (evs : List Event) :
    publishCalls (Event.create t r :: evs) = publishCalls evs := rfl

theorem publishCalls_cons_sleep (n : Nat) (evs : List Event) :
    publishCalls (Event.sleep n :: evs) = publishCalls evs := rfl

theorem publishCalls_cons_publish (cid : String) (evs : List Event) :
    publishCalls (Event.publish cid :: evs) = cid :: publishCalls evs := rfl

theorem publishCalls_cons_status (s : String) (t : Option String) (evs : List Event) :
    publishCalls (Event.statusUpdate s t :: evs) = publishCalls evs := rfl

theorem statusWrites_cons_create (t : String) (r : Option String) (evs : List Event) :
    statusWrites (Event.create t r :: evs) = statusWrites evs := rfl

theorem statusWrites_cons_sleep (n : Nat) (evs : List Event) :
    statusWrites (Event.sleep n :: evs) = statusWrites evs := rfl

theorem statusWrites_cons_publish (cid : String) (evs : List Event) :
    statusWrites (Event.publish cid :: evs) = statusWrites evs := rfl

theorem statusWrites_cons_status (s : String) (t : Option String) (evs : List Event) :
    statusWrites (Event.statusUpdate s t :: evs) = s :: statusWrites evs := rfl

theorem createCalls_append (l₁ l₂ : List Event) :
    createCalls (l₁ ++ l₂) = createCalls l₁ ++ createCalls l₂ :=
  List.filterMap_append ..

theorem publishCalls_append (l₁ l₂ : List Event) :
    publishCalls (l₁ ++ l₂) = publishCalls l₁ ++ publishCalls l₂ :=
  List.filterMap_append ..

theorem statusWrites_append (l₁ l₂ : List Event) :
    statusWrites (l₁ ++ l₂) = statusWrites l₁ ++ statusWrites l₂ :=
  List.filterMap_append ..

/-- When every create and publish call succeeds the posting loop performs the
`okTrace` events, never exits early, and the root it records is the published
id of block 0 (for a loop started at index 0 on a non-empty list). -/
theorem postingLoop_allOk (c p : Nat → String) (blocks : List String) :
    ∀ (i : Nat) (last root : Option String),
      postingLoop (fun k => some (c k)) (fun k => some (p k)) blocks i last root =
        (okTrace c p blocks i last,
         (if blocks.isEmpty then root else if i = 0 then some (p 0) else root),
         true) := by
  induction blocks with
  | nil => intro i last root; rfl
  | cons b rest ih =>
    intro i last root
    simp only [postingLoop, okTrace, List.isEmpty_cons]
    rw [ih (i + 1) (some (p i)) (if i = 0 then some (p i) else root)]
    by_cases hi : i = 0
    · subst hi
      simp
    · simp [hi]

theorem okTrace_length (c p : Nat → String) (blocks : List String) :
    ∀ (i : Nat) (last : Option String),
      (okTrace c p blocks i last).length = 3 * blocks.length := by
  induction blocks with
  | nil => intro i last; rfl
  | cons b rest ih =>
    intro i last
    simp only [okTrace, List.length_cons, ih (i + 1) (some (p i)),
      List.length_cons]
    omega

theorem statusWrites_okTrace (c p : Nat → String) (blocks : List String) :
    ∀ (i : Nat) (last : Option String),
      statusWrites (okTrace c p blocks i last) = [] := by
  induction blocks with
  | nil => intro i last; rfl
  | cons b rest ih =>
    intro i last
    simp only [okTrace, statusWrites_cons_create, statusWrites_cons_sleep,
      statusWrites_cons_publish, ih (i + 1) (some (p i))]

theorem createCalls_okTrace_length (c p : Nat → String) (blocks : List String) :
    ∀ (i : Nat) (last : Option String),
      (createCalls (okTrace c p blocks i last)).length = blocks.length := by
  induction blocks with
  | nil => intro i last; rfl
  | cons b rest ih =>
    intro i last
    simp only [okTrace, createCalls_cons_create, createCalls_cons_sleep,
      createCalls_cons_publish, List.length_cons, ih (i + 1) (some (p i))]

theorem publishCalls_okTrace_length (c p : Nat → String) (blocks : List String) :
    ∀ (i : Nat) (last : Option String),
      (publishCalls (okTrace c p blocks i last)).length = blocks.length := by
  induction blocks with
  | nil => intro i last; rfl
  | cons b rest ih =>
    intro i last
    simp only [okTrace, publishCalls_cons_create, publishCalls_cons_sleep,
      publishCalls_cons_publish, List.length_cons, ih (i + 1) (some (p i))]

/-- The `j`-th create call of an all-success trace posts the `j`-th block,
replying to the id published for the previous block. -/
theorem createCalls_okTrace_get (c p : Nat → String) (blocks : List String) :
    ∀ (i : Nat) (last : Option String) (j : Nat) (blk : String),
      blocks.get? j = some blk →
      (createCalls (okTrace c p blocks i last)).get? j =
        some (blk, if j = 0 then last else some (p (i + j - 1))) := by
  induction blocks with
  | nil => intro i last j blk h; simp at h
  | cons b rest ih =>
    intro i last j blk h
    simp only [okTrace, createCalls_cons_create, createCalls_cons_sleep,
      createCalls_cons_publish]
    cases j with
    | zero =>
      simp only [List.get?_cons_zero, Option.some.injEq] at h
      subst h
      simp
    | succ j =>
      simp only [List.get?_cons_succ] at h
      rw [List.get?_cons_succ, ih (i + 1) (some (p i)) j blk h]
      cases j with
      | zero => simp
      | succ j =>
        have h1 : i + 1 + (j + 1) - 1 = i + (j + 1 + 1) - 1 := by omega
        simp [h1]

/-- The `j`-th publish call of an all-success trace publishes the container
created for the `j`-th block. -/
theorem publishCalls_okTrace_get (c p : Nat → String) (blocks : List String) :
    ∀ (i : Nat) (last : Option String) (j : Nat),
      j < blocks.length →
      (publishCalls (okTrace c p blocks i last)).get? j = some (c (i + j)) := by
  induction blocks with
  | nil => intro i last j h; simp at h
  | cons b rest ih =>
    intro i last j h
    simp only [okTrace, publishCalls_cons_create, publishCalls_cons_sleep,
      publishCalls_cons_publish]
    cases j with
    | zero => simp
    | succ j =>
      rw [List.get?_cons_succ,
        ih (i + 1) (some (p i)) j (by simpa using Nat.lt_of_succ_lt_succ h)]
      have h1 : i + 1 + j = i + (j + 1) := by omega
      rw [h1]

/-- The three raw trace positions of block `j` in an all-success trace:
its create call, its sleep, and its publish call, in that order. -/
theorem okTrace_get (c p : Nat → String) (blocks : List String) :
    ∀ (i : Nat) (last : Option String) (j : Nat) (blk : String),
      blocks.get? j = some blk →
      (okTrace c p blocks i last).get? (3 * j) =
        some (Event.create blk (if j = 0 then last else some (p (i + j - 1)))) ∧
      (okTrace c p blocks i last).get? (3 * j + 1) =
        some (Event.sleep (if i + j = 0 then 30 else 10)) ∧
      (okTrace c p blocks i last).get? (3 * j + 2) =
        some (Event.publish (c (i + j))) := by
  induction blocks with
  | nil => intro i last j blk h; simp at h
  | cons b rest ih =>
    intro i last j blk h
    cases j with
    | zero =>
      simp only [List.get?_cons_zero, Option.some.injEq] at h
      subst h
      refine ⟨rfl, ?_, by simp [okTrace]⟩
      simp [okTrace]
    | succ j =>
      simp only [List.get?_cons_succ] at h
      have h3 : 3 * (j + 1) = 3 * j + 1 + 1 + 1 := by omega
      obtain ⟨ih1, ih2, ih3⟩ := ih (i + 1) (some (p i)) j blk h
      refine ⟨?_, ?_, ?_⟩
      · rw [h3]
        simp only [okTrace, List.get?_cons_succ]
        rw [ih1]
        cases j with
        | zero => simp
        | succ j =>
          have h1 : i + 1 + (j + 1) - 1 = i + (j + 1 + 1) - 1 := by omega
          simp [h1]
      · have h4 : 3 * (j + 1) + 1 = 3 * j + 1 + 1 + 1 + 1 := by omega
        rw [h4]
        simp only [okTrace, List.get?_cons_succ]
        have h5 : i + 1 + j = i + (j + 1) := by omega
        rw [h5] at ih2
        exact ih2
      · have h4 : 3 * (j + 1) + 2 = 3 * j + 2 + 1 + 1 + 1 := by omega
        rw [h4]
        simp only [okTrace, List.get?_cons_succ]
        have h5 : i + 1 + j = i + (j + 1) := by omega
        rw [h5] at ih3
        exact ih3

theorem createCalls_nil : createCalls [] = [] := rfl

theorem publishCalls_nil : publishCalls [] = [] := rfl

theorem statusWrites_nil : statusWrites [] = [] := rfl

/-- The posting loop writes no status on success and exactly one `Error`
status on failure. -/
theorem postingLoop_statusWrites (cr pr : Nat → Option String)
    (blocks : List String) :
    ∀ (i : Nat) (last root : Option String),
      statusWrites (postingLoop cr pr blocks i last root).1 =
        if (postingLoop cr pr blocks i last root).2.2 then [] else ["Error"] := by
  induction blocks with
  | nil => intro i last root; rfl
  | cons b rest ih =>
    intro i last root
    cases hc : cr i with
    | none =>
      simp [postingLoop, hc, statusWrites_cons_create, statusWrites_cons_status,
        statusWrites_nil]
    | some cid =>
      cases hp : pr i with
      | none =>
        simp [postingLoop, hc, hp, statusWrites_cons_create,
          statusWrites_cons_sleep, statusWrites_cons_publish,
          statusWrites_cons_status, statusWrites_nil]
      | some pid =>
        simp only [postingLoop, hc, hp, statusWrites_cons_create,
          statusWrites_cons_sleep, statusWrites_cons_publish]
        exact ih (i + 1) (some pid) (if i = 0 then some pid else root)

/-- A loop started past index 0 never changes the accumulated root. -/
theorem postingLoop_root_of_ne (cr pr : Nat → Option String)
    (blocks : List String) :
    ∀ (i : Nat) (last root : Option String), i ≠ 0 →
      (postingLoop cr pr blocks i last root).2.1 = root := by
  induction blocks with
  | nil => intro i last root hi; rfl
  | cons b rest ih =>
    intro i last root hi
    cases hc : cr i with
    | none => simp [postingLoop, hc]
    | some cid =>
      cases hp : pr i with
      | none => simp [postingLoop, hc, hp]
      | some pid =>
        simp only [postingLoop, hc, hp, if_neg hi]
        exact ih (i + 1) (some pid) root (Nat.succ_ne_zero i)

/-- A loop over a non-empty chain that never exits early records some root. -/
theorem postingLoop_ok_root (cr pr : Nat → Option String) (b : String)
    (rest : List String) (last root : Option String) :
    (postingLoop cr pr (b :: rest) 0 last root).2.2 = true →
    ∃ pid, pr 0 = some pid ∧
      (postingLoop cr pr (b :: rest) 0 last root).2.1 = some pid := by
  cases hc : cr 0 with
  | none => intro h; simp [postingLoop, hc] at h
  | some cid =>
    cases hp : pr 0 with
    | none => intro h; simp [postingLoop, hc, hp] at h
    | some pid =>
      intro h
      refine ⟨pid, rfl, ?_⟩
      simp only [postingLoop, hc, hp, if_pos rfl]
      exact postingLoop_root_of_ne cr pr rest 1 (some pid) (some pid) one_ne_zero

/-- The texts passed to create calls are an initial segment of the input
chain, in input order. -/
theorem postingLoop_creates_initial (cr pr : Nat → Option String)
    (blocks : List String) :
    ∀ (i : Nat) (last root : Option String),
      ∃ t, (createCalls (postingLoop cr pr blocks i last root).1).map Prod.fst
          ++ t = blocks := by
  induction blocks with
  | nil => intro i last root; exact ⟨[], rfl⟩
  | cons b rest ih =>
    intro i last root
    cases hc : cr i with
    | none =>
      refine ⟨rest, ?_⟩
      simp [postingLoop, hc, createCalls_cons_create, createCalls_cons_status,
        createCalls_nil]
    | some cid =>
      cases hp : pr i with
      | none =>
        refine ⟨rest, ?_⟩
        simp [postingLoop, hc, hp, createCalls_cons_create,
          createCalls_cons_sleep, createCalls_cons_publish,
          createCalls_cons_status, createCalls_nil]
      | some pid =>
        obtain ⟨t, ht⟩ := ih (i + 1) (some pid) (if i = 0 then some pid else root)
        refine ⟨t, ?_⟩
        simp only [postingLoop, hc, hp, createCalls_cons_create,
          createCalls_cons_sleep, createCalls_cons_publish, List.map_cons,
          List.cons_append]
        rw [ht]

/-- When every call up to block `k` succeeds and block `k` fails its create
or its publish, the loop exits early: exactly the blocks up to `k` get a
create call, at most they get publish calls, and the one status written is
`Error`. -/
theorem postingLoop_fail (cr pr : Nat → Option String) (blocks : List String) :
    ∀ (i : Nat) (last root : Option String) (k : Nat),
      i ≤ k → k - i < blocks.length →
      (∀ j, i ≤ j → j < k → (cr j).isSome ∧ (pr j).isSome) →
      (cr k = none ∨ pr k = none) →
      (postingLoop cr pr blocks i last root).2.2 = false ∧
      (createCalls (postingLoop cr pr blocks i last root).1).length = k - i + 1 ∧
      (publishCalls (postingLoop cr pr blocks i last root).1).length ≤ k - i + 1 ∧
      statusWrites (postingLoop cr pr blocks i last root).1 = ["Error"] := by
  induction blocks with
  | nil => intro i last root k hik hlen hsucc hfail; simp at hlen
  | cons b rest ih =>
    intro i last root k hik hlen hsucc hfail
    rcases Nat.lt_or_ge i k with hlt | hge
    · obtain ⟨hcs, hps⟩ := hsucc i (le_refl i) hlt
      obtain ⟨cid, hc⟩ := Option.isSome_iff_exists.mp hcs
      obtain ⟨pid, hp⟩ := Option.isSome_iff_exists.mp hps
      have hlen' : k - (i + 1) < rest.length := by
        simp only [List.length_cons] at hlen
        omega
      obtain ⟨ih1, ih2, ih3, ih4⟩ :=
        ih (i + 1) (some pid) (if i = 0 then some pid else root) k hlt hlen'
          (fun j hj1 hj2 => hsucc j (by omega) hj2) hfail
      simp only [postingLoop, hc, hp, createCalls_cons_create,
        createCalls_cons_sleep, createCalls_cons_publish,
        publishCalls_cons_create, publishCalls_cons_sleep,
        publishCalls_cons_publish, statusWrites_cons_create,
        statusWrites_cons_sleep, statusWrites_cons_publish, List.length_cons]
      exact ⟨ih1, by omega, by omega, ih4⟩
    · have hik2 : k = i := by omega
      subst hik2
      rcases hfail with hc | hp
      · simp [postingLoop, hc, createCalls_cons_create, createCalls_cons_status,
          createCalls_nil, publishCalls_cons_create, publishCalls_cons_status,
          publishCalls_nil, statusWrites_cons_create, statusWrites_cons_status,
          statusWrites_nil]
      · cases hc : cr k with
        | none =>
          simp [postingLoop, hc, createCalls_cons_create,
            createCalls_cons_status, createCalls_nil, publishCalls_cons_create,
            publishCalls_cons_status, publishCalls_nil,
            statusWrites_cons_create, statusWrites_cons_status,
            statusWrites_nil]
        | some cid =>
          simp [postingLoop, hc, hp, createCalls_cons_create,
            createCalls_cons_sleep, createCalls_cons_publish,
            createCalls_cons_status, createCalls_nil, publishCalls_cons_create,
            publishCalls_cons_sleep, publishCalls_cons_publish,
            publishCalls_cons_status, publishCalls_nil,
            statusWrites_cons_create, statusWrites_cons_sleep,
            statusWrites_cons_publish, statusWrites_cons_status,
            statusWrites_nil]

/-- The full shape of a Publisher run on a non-empty chain in which every
create and publish call succeeds. -/
theorem publisherMain_allOk (c p : Nat → String) (row : PostRow) (b : String)
    (rest : List String) (hbl : cleanBlocks row = b :: rest) :
    publisherMain (fun k => some (c k)) (fun k => some (p k)) row =
      ⟨Event.statusUpdate "Posting" none ::
        (okTrace c p (b :: rest) 0 none ++
          [Event.statusUpdate "Posted" (some (p 0))]),
       0, some (p 0)⟩ := by
  simp only [publisherMain]
  rw [hbl, postingLoop_allOk]
  simp

/-- Claim C1: for a chain of N non-empty blocks (1 ≤ N ≤ 4), when every
create and publish call succeeds the Publisher exits 0, makes exactly N
create calls and N publish calls in input-block order, passes as
reply-target of block `j` the id published for block `j-1` (none for block
0), and records the id published for block 0 as the root identifier (both in
its output and in the final `Posted` status write). -/
theorem publisher_success_chain (c p : Nat → String) (row : PostRow)
    (h1 : 1 ≤ (cleanBlocks row).length) :
    (cleanBlocks row).length ≤ 4 ∧
    (publisherMain (fun k => some (c k)) (fun k => some (p k)) row).exitCode = 0 ∧
    (publisherMain (fun k => some (c k)) (fun k => some (p k)) row).rootPostId
      = some (p 0) ∧
    (publisherMain (fun k => some (c k)) (fun k => some (p k)) row).events.getLast?
      = some (Event.statusUpdate "Posted" (some (p 0))) ∧
    (createCalls (publisherMain (fun k => some (c k)) (fun k => some (p k)) row).events).length
      = (cleanBlocks row).length ∧
    (publishCalls (publisherMain (fun k => some (c k)) (fun k => some (p k)) row).events).length
      = (cleanBlocks row).length ∧
    (∀ j blk, (cleanBlocks row).get? j = some blk →
      (createCalls (publisherMain (fun k => some (c k)) (fun k => some (p k)) row).events).get? j
        = some (blk, if j = 0 then none else some (p (j - 1)))) ∧
    (∀ j, j < (cleanBlocks row).length →
      (publishCalls (publisherMain (fun k => some (c k)) (fun k => some (p k)) row).events).get? j
        = some (c j)) := by
  cases hbl : cleanBlocks row with
  | nil => rw [hbl] at h1; simp at h1
  | cons b rest =>
    have h4 : (cleanBlocks row).length ≤ 4 := by
      have hle := List.length_filter_le (fun s => !s.isEmpty)
        ((rawBlocks row).map pyStrip)
      simpa [cleanBlocks, rawBlocks] using hle
    rw [publisherMain_allOk c p row b rest hbl]
    dsimp only
    rw [hbl] at h4
    have hcc : createCalls
        (Event.statusUpdate "Posting" none ::
          (okTrace c p (b :: rest) 0 none ++
            [Event.statusUpdate "Posted" (some (p 0))])) =
        createCalls (okTrace c p (b :: rest) 0 none) := by
      rw [createCalls_cons_status, createCalls_append]
      simp [createCalls_cons_status, createCalls_nil]
    have hpc : publishCalls
        (Event.statusUpdate "Posting" none ::
          (okTrace c p (b :: rest) 0 none ++
            [Event.statusUpdate "Posted" (some (p 0))])) =
        publishCalls (okTrace c p (b :: rest) 0 none) := by
      rw [publishCalls_cons_status, publishCalls_append]
      simp [publishCalls_cons_status, publishCalls_nil]
    refine ⟨h4, rfl, rfl, ?_, ?_, ?_, ?_, ?_⟩
    · rw [← List.cons_append, List.getLast?_concat]
    · rw [hcc, createCalls_okTrace_length]
    · rw [hpc, publishCalls_okTrace_length]
    · intro j blk hj
      rw [hcc]
      have := createCalls_okTrace_get c p (b :: rest) 0 none j blk hj
      simpa using this
    · intro j hj
      rw [hpc]
      have := publishCalls_okTrace_get c p (b :: rest) 0 none j hj
      simpa using this

theorem publisher_success_chain_witness :
    1 ≤ (cleanBlocks ⟨"a", " b ", "", ""⟩).length ∧
    (publisherMain (fun k => some (toString k))
      (fun k => some (toString (k + 50))) ⟨"a", " b ", "", ""⟩).exitCode = 0 :=
  ⟨by decide,
   (publisher_success_chain (fun k => toString k) (fun k => toString (k + 50))
      ⟨"a", " b ", "", ""⟩ (by decide)).2.1⟩

/-- Claim C2: if block `k` fails creation or publication while every earlier
block succeeded, the Publisher exits 1, writes `Posting` then `Error` (and
no other status), makes create calls only for blocks `0..k`, and publish
calls at most for blocks `0..k`. -/
theorem publisher_failure_aborts (cr pr : Nat → Option String) (row : PostRow)
    (k : Nat) (hk : k < (cleanBlocks row).length)
    (hsucc : ∀ j, j < k → (cr j).isSome ∧ (pr j).isSome)
    (hfail : cr k = none ∨ pr k = none) :
    (publisherMain cr pr row).exitCode = 1 ∧
    statusWrites (publisherMain cr pr row).events = ["Posting", "Error"] ∧
    (createCalls (publisherMain cr pr row).events).length = k + 1 ∧
    (publishCalls (publisherMain cr pr row).events).length ≤ k + 1 := by
  cases hbl : cleanBlocks row with
  | nil => rw [hbl] at hk; simp at hk
  | cons b rest =>
    rw [hbl] at hk
    obtain ⟨hok, hcr, hpu, hst⟩ :=
      postingLoop_fail cr pr (b :: rest) 0 none none k (Nat.zero_le k)
        (by simpa using hk) (fun j _ hj2 => hsucc j hj2) hfail
    have hmain : publisherMain cr pr row =
        ⟨Event.statusUpdate "Posting" none ::
          (postingLoop cr pr (b :: rest) 0 none none).1, 1, none⟩ := by
      simp only [publisherMain]
      rw [hbl]
      simp [hok]
    rw [hmain]
    refine ⟨rfl, ?_, ?_, ?_⟩
    · rw [statusWrites_cons_status, hst]
    · rw [createCalls_cons_status]
      omega
    · rw [publishCalls_cons_status]
      omega

theorem publisher_failure_aborts_witness :
    (0 < (cleanBlocks ⟨"a", "b", "", ""⟩).length ∧
      ((fun _ => (none : Option String)) 0 = none ∨
        ((fun _ => some "P") : Nat → Option String) 0 = none)) ∧
    (publisherMain (fun _ => none) (fun _ => some "P") ⟨"a", "b", "", ""⟩).exitCode = 1 :=
  ⟨⟨by decide, Or.inl rfl⟩,
   (publisher_failure_aborts (fun _ => none) (fun _ => some "P")
      ⟨"a", "b", "", ""⟩ 0 (by decide) (fun j hj => absurd hj (Nat.not_lt_zero j))
      (Or.inl rfl)).1⟩

/-- Claim C6: blank blocks (after stripping) are excluded before posting and
the remaining blocks keep their order — the texts actually sent to create
calls form an initial segment of the stripped, filtered block list, and all
are non-empty; when no non-empty block remains, the run exits 1 having made
no create or publish call, its only status write being `Error`. -/
theorem blank_blocks_excluded (co po : Nat → Option String) (row : PostRow) :
    cleanBlocks row = ((rawBlocks row).map pyStrip).filter (fun s => !s.isEmpty) ∧
    (∃ t, (createCalls (publisherMain co po row).events).map Prod.fst ++ t
        = cleanBlocks row) ∧
    (∀ q ∈ createCalls (publisherMain co po row).events, q.1.isEmpty = false) ∧
    (cleanBlocks row = [] →
      (publisherMain co po row).exitCode = 1 ∧
      createCalls (publisherMain co po row).events = [] ∧
      publishCalls (publisherMain co po row).events = [] ∧
      statusWrites (publisherMain co po row).events = ["Error"]) := by
  have hpre : ∃ t,
      (createCalls (publisherMain co po row).events).map Prod.fst ++ t
        = cleanBlocks row := by
    cases hbl : cleanBlocks row with
    | nil =>
      have hmain : publisherMain co po row =
          ⟨[Event.statusUpdate "Error" none], 1, none⟩ := by
        simp only [publisherMain]
        rw [hbl]
        rfl
      rw [hmain]
      exact ⟨[], rfl⟩
    | cons b rest =>
      obtain ⟨t, ht⟩ :=
        postingLoop_creates_initial co po (b :: rest) 0 none none
      cases hok : (postingLoop co po (b :: rest) 0 none none).2.2 with
      | false =>
        have hmain : publisherMain co po row =
            ⟨Event.statusUpdate "Posting" none ::
              (postingLoop co po (b :: rest) 0 none none).1, 1, none⟩ := by
          simp only [publisherMain]
          rw [hbl]
          simp [hok]
        rw [hmain, createCalls_cons_status]
        exact ⟨t, ht⟩
      | true =>
        obtain ⟨pid, _, hroot⟩ :=
          postingLoop_ok_root co po b rest none none hok
        have hmain : publisherMain co po row =
            ⟨Event.statusUpdate "Posting" none ::
              ((postingLoop co po (b :: rest) 0 none none).1 ++
                [Event.statusUpdate "Posted" (some pid)]), 0, some pid⟩ := by
          simp only [publisherMain]
          rw [hbl]
          simp [hok, hroot]
        rw [hmain, createCalls_cons_status, createCalls_append]
        refine ⟨t, ?_⟩
        simpa [createCalls_cons_status, createCalls_nil] using ht
  refine ⟨rfl, hpre, ?_, ?_⟩
  · intro q hq
    obtain ⟨t, ht⟩ := hpre
    have hmem : q.1 ∈ cleanBlocks row := by
      rw [← ht]
      exact List.mem_append_left t (List.mem_map_of_mem Prod.fst hq)
    have := List.mem_filter.mp hmem
    simpa using this.2
  · intro h
    have hmain : publisherMain co po row =
        ⟨[Event.statusUpdate "Error" none], 1, none⟩ := by
      simp only [publisherMain]
      rw [h]
      rfl
    rw [hmain]
    exact ⟨rfl, rfl, rfl, rfl⟩

theorem blank_blocks_excluded_witness :
    cleanBlocks ⟨"", "  ", "", ""⟩ = [] ∧
    (publisherMain (fun _ => some "C") (fun _ => some "P")
        ⟨"", "  ", "", ""⟩).exitCode = 1 ∧
    createCalls (publisherMain (fun _ => some "C") (fun _ => some "P")
        ⟨"", "  ", "", ""⟩).events = [] ∧
    publishCalls (publisherMain (fun _ => some "C") (fun _ => some "P")
        ⟨"", "  ", "", ""⟩).events = [] ∧
    statusWrites (publisherMain (fun _ => some "C") (fun _ => some "P")
        ⟨"", "  ", "", ""⟩).events = ["Error"] :=
  ⟨by decide,
   (blank_blocks_excluded (fun _ => some "C") (fun _ => some "P")
      ⟨"", "  ", "", ""⟩).2.2.2 (by decide)⟩

/-- Claim C7 counterexample: a run on a row whose blocks are all blank
performs a single status write, `Error`, directly from the initial `Ready`
status — a transition outside `ready → posting → (posted | error)` — so the
claim that every status write follows one of the three forward transitions
is false on the code. -/
theorem ready_to_error_cex :
    forwardOnly "Ready"
      (statusWrites (publisherMain (fun _ => none) (fun _ => none)
        ⟨" ", "", "", ""⟩).events) = false := by decide

/-- Claim C7 as amended: in every run the sequence of status writes is
`[Posting, Posted]` (success), `[Posting, Error]` (mid-chain failure), or —
exactly when the row has no non-empty block — the single write `[Error]`
performed straight from the initial status. -/
theorem status_write_sequences (co po : Nat → Option String) (row : PostRow) :
    (statusWrites (publisherMain co po row).events = ["Error"] ∨
     statusWrites (publisherMain co po row).events = ["Posting", "Posted"] ∨
     statusWrites (publisherMain co po row).events = ["Posting", "Error"]) ∧
    (statusWrites (publisherMain co po row).events = ["Error"] ↔
      cleanBlocks row = []) := by
  cases hbl : cleanBlocks row with
  | nil =>
    have hmain : publisherMain co po row =
        ⟨[Event.statusUpdate "Error" none], 1, none⟩ := by
      simp only [publisherMain]
      rw [hbl]
      rfl
    rw [hmain]
    exact ⟨Or.inl (by decide), by decide⟩
  | cons b rest =>
    have hsw := postingLoop_statusWrites co po (b :: rest) 0 none none
    cases hok : (postingLoop co po (b :: rest) 0 none none).2.2 with
    | true =>
      obtain ⟨pid, _, hroot⟩ := postingLoop_ok_root co po b rest none none hok
      have hmain : publisherMain co po row =
          ⟨Event.statusUpdate "Posting" none ::
            ((postingLoop co po (b :: rest) 0 none none).1 ++
              [Event.statusUpdate "Posted" (some pid)]), 0, some pid⟩ := by
        simp only [publisherMain]
        rw [hbl]
        simp [hok, hroot]
      rw [hok] at hsw
      rw [hmain]
      dsimp only
      rw [statusWrites_cons_status, statusWrites_append]
      rw [if_pos rfl] at hsw
      rw [hsw]
      refine ⟨Or.inr (Or.inl rfl), ?_⟩
      constructor
      · intro h
        simp at h
      · intro h
        simp at h
    | false =>
      have hmain : publisherMain co po row =
          ⟨Event.statusUpdate "Posting" none ::
            (postingLoop co po (b :: rest) 0 none none).1, 1, none⟩ := by
        simp only [publisherMain]
        rw [hbl]
        simp [hok]
      rw [hok] at hsw
      rw [hmain]
      dsimp only
      rw [statusWrites_cons_status]
      rw [if_neg (by simp)] at hsw
      rw [hsw]
      refine ⟨Or.inr (Or.inr rfl), ?_⟩
      constructor
      · intro h
        simp at h
      · intro h
        simp at h

/-- Claim C9: in a fully successful run, right after the create call of
block `j` the Publisher sleeps 30 time-units if `j = 0` and 10 otherwise,
and only then issues the publish call for the container created for block
`j`: at trace position `3j+1` sits block `j`'s create call, at `3j+2` the
sleep with that duration, and at `3j+3` the publish of that container. -/
theorem publish_delay_schedule (c p : Nat → String) (row : PostRow) (j : Nat)
    (hj : j < (cleanBlocks row).length) :
    (∃ blk, (cleanBlocks row).get? j = some blk ∧
      (publisherMain (fun k => some (c k)) (fun k => some (p k)) row).events.get?
          (3 * j + 1) =
        some (Event.create blk (if j = 0 then none else some (p (j - 1))))) ∧
    (publisherMain (fun k => some (c k)) (fun k => some (p k)) row).events.get?
        (3 * j + 2) = some (Event.sleep (if j = 0 then 30 else 10)) ∧
    (publisherMain (fun k => some (c k)) (fun k => some (p k)) row).events.get?
        (3 * j + 3) = some (Event.publish (c j)) := by
  cases hbl : cleanBlocks row with
  | nil => rw [hbl] at hj; simp at hj
  | cons b rest =>
    rw [hbl] at hj
    rw [publisherMain_allOk c p row b rest hbl]
    dsimp only
    obtain ⟨blk, hblk⟩ : ∃ blk, (b :: rest).get? j = some blk := by
      cases hg : (b :: rest).get? j with
      | none =>
        rw [List.get?_eq_none] at hg
        omega
      | some blk => exact ⟨blk, rfl⟩
    obtain ⟨h0, h1, h2⟩ := okTrace_get c p (b :: rest) 0 none j blk hblk
    have hlen : (okTrace c p (b :: rest) 0 none).length = 3 * (b :: rest).length :=
      okTrace_length c p (b :: rest) 0 none
    refine ⟨⟨blk, hblk, ?_⟩, ?_, ?_⟩
    · rw [List.get?_cons_succ, List.get?_append (by omega), h0]
      simp
    · rw [show 3 * j + 2 = (3 * j + 1) + 1 from rfl, List.get?_cons_succ,
        List.get?_append (by omega), h1]
      simp
    · rw [show 3 * j + 3 = (3 * j + 2) + 1 from rfl, List.get?_cons_succ,
        List.get?_append (by omega), h2]
      simp

theorem publish_delay_schedule_witness :
    1 < (cleanBlocks ⟨"a", "b", "", ""⟩).length ∧
    (publisherMain (fun k => some (toString k))
        (fun k => some (toString (k + 50))) ⟨"a", "b", "", ""⟩).events.get? 5 =
      some (Event.sleep 10) :=
  ⟨by decide,
   (publish_delay_schedule (fun k => toString k) (fun k => toString (k + 50))
      ⟨"a", "b", "", ""⟩ 1 (by decide)).2.1⟩

/-- Claim C10: `update_post_status` returns a boolean — `false` exactly when
something went wrong (an exception, the row not found, or no `Status`
column) — instead of raising; its result is never consulted, so the events
and exit code of a run are identical under any two update outcomes; in
particular a run can exit 0 with every status write having failed to land. -/
theorem status_update_isolated :
    (∀ sh : SheetCond, update_post_status sh =
      (!sh.updateRaises && (sh.findOk && sh.hasStatusCol))) ∧
    (∀ (cr pr : Nat → Option String) (u u' : Nat → SheetCond) (row : PostRow),
      (publisherMainU cr pr u row).result = (publisherMainU cr pr u' row).result) ∧
    (publisherMainU (fun _ => some "C") (fun _ => some "P") noUpd
        ⟨"a", "", "", ""⟩).result.exitCode = 0 ∧
    (publisherMainU (fun _ => some "C") (fun _ => some "P") noUpd
        ⟨"a", "", "", ""⟩).applied = [] := by
  refine ⟨?_, ?_, by decide, by decide⟩
  · intro sh
    obtain ⟨f, s, r⟩ := sh
    cases r <;> cases f <;> cases s <;> rfl
  · intro cr pr u u' row
    rfl

/-!  Lemmas about the insights dictionary. -/

theorem lookup_cons (m k : String) (v : Nat) (d : List (String × Nat)) :
    ((k, v) :: d).lookup m = if m == k then some v else d.lookup m := by
  cases h : m == k <;> simp [List.lookup, h]

theorem lookup_dictSet_ne (k : String) (v : Nat) (m : String) (h : m ≠ k) :
    ∀ d : List (String × Nat), (dictSet d k v).lookup m = d.lookup m := by
  intro d
  induction d with
  | nil =>
    simp [dictSet, lookup_cons, beq_eq_false_iff_ne.mpr h]
  | cons a d ih =>
    obtain ⟨k', v'⟩ := a
    by_cases hk : k' = k
    · subst hk
      simp only [dictSet, eq_self_iff_true, if_true]
      rw [lookup_cons, lookup_cons]
      simp [beq_eq_false_iff_ne.mpr h]
    · simp only [dictSet, if_neg hk]
      rw [lookup_cons, lookup_cons, ih]

/-- The parsing fold of `get_post_insights` never creates a key that is not
the name of some entry of the response. -/
theorem parseFold_lookup_none (m : String) :
    ∀ (es : List MetricEntry) (d : List (String × Nat)),
      (∀ e ∈ es, e.name ≠ m) → d.lookup m = none →
      (es.foldl (fun d e =>
        match extractEntry e with
        | some v => dictSet d e.name v
        | none => d) d).lookup m = none := by
  intro es
  induction es with
  | nil => intro d _ hd; exact hd
  | cons e es ih =>
    intro d h hd
    rw [List.foldl_cons]
    refine ih _ (fun e' he' => h e' (List.mem_cons_of_mem e he')) ?_
    cases hx : extractEntry e with
    | none => simpa [hx] using hd
    | some v =>
      simp only [hx]
      rw [lookup_dictSet_ne e.name v m (h e (List.mem_cons_self e es)).symm]
      exact hd

/-- A metric named by no entry of the response is absent from the parsed
insights. -/
theorem parseInsights_lookup_none (resp : InsightsResponse) (m : String)
    (h : ∀ e ∈ resp.data.getD [], e.name ≠ m) :
    (parseInsights resp).lookup m = none := by
  cases hd : resp.data with
  | none => simp [parseInsights, hd]
  | some es =>
    rw [hd] at h
    simp only [parseInsights]
    rw [hd]
    exact parseFold_lookup_none m es [] (by simpa using h) rfl

/-- Claim C3: on the spec's example response — a views series
`[{value:5},{value:12}]`, a likes aggregate `{value:3}`, no replies entry —
the values consumed from the fetch result are views 12, likes 3, replies 0;
and in general any metric named by no entry of the response (so absent in
both time-series and aggregate form) contributes 0. -/
theorem insights_example_and_default (resp : InsightsResponse) (m : String)
    (h : ∀ e ∈ resp.data.getD [], e.name ≠ m) :
    dictGetD (parseInsights resp) m = 0 ∧
    dictGetD (parseInsights exampleResp) "views" = 12 ∧
    dictGetD (parseInsights exampleResp) "likes" = 3 ∧
    dictGetD (parseInsights exampleResp) "replies" = 0 := by
  refine ⟨?_, by decide, by decide, by decide⟩
  unfold dictGetD
  rw [parseInsights_lookup_none resp m h]
  rfl

theorem insights_example_and_default_witness :
    (∀ e ∈ exampleResp.data.getD [], e.name ≠ "replies") ∧
    dictGetD (parseInsights exampleResp) "replies" = 0 :=
  ⟨by decide,
   (insights_example_and_default exampleResp "replies" (by decide)).1⟩

/-- Claim C4 counterexample: for a response reporting `likes` only as the
time series `[{value:5},{value:12}]`, the code extracts the sum 17, not the
last sample 12 — refuting the claim that a metric reported as a time series
always takes its last sample. -/
theorem likes_series_sum_cex :
    (parseInsights likesSeriesResp).lookup "likes" = some 17 ∧
    ¬ (parseInsights likesSeriesResp).lookup "likes" = some 12 := by decide

/-- Claim C4 as amended: `views` reported as a time series takes its last
sample's value; `likes`/`replies` reported with an aggregate take the
aggregate's value (even when a series is also present); `likes`/`replies`
reported only as a non-empty time series take the SUM of the samples'
values; `views` reported only as an aggregate is not extracted at all. -/
theorem metric_extraction_policy :
    (∀ (vs : List (Option Nat)) (tvo : Option (Option Nat)),
      (parseInsights ⟨some [⟨"views", some vs, tvo⟩]⟩).lookup "views" =
        vs.getLast?.map (fun ov => ov.getD 0)) ∧
    (∀ name : String, (name = "likes" ∨ name = "replies") →
      ∀ (tv : Option Nat) (vso : Option (List (Option Nat))),
        (parseInsights ⟨some [⟨name, vso, some tv⟩]⟩).lookup name =
          some (tv.getD 0)) ∧
    (∀ name : String, (name = "likes" ∨ name = "replies") →
      ∀ vs : List (Option Nat),
        (parseInsights ⟨some [⟨name, some vs, none⟩]⟩).lookup name =
          if vs.isEmpty then none
          else some ((vs.map (fun ov => ov.getD 0)).sum)) ∧
    (∀ tv : Option Nat,
      (parseInsights ⟨some [⟨"views", none, some tv⟩]⟩).lookup "views" = none) := by
  refine ⟨?_, ?_, ?_, ?_⟩
  · intro vs tvo
    cases hl : vs.getLast? with
    | none => simp [parseInsights, extractEntry, hl]
    | some ov => simp [parseInsights, extractEntry, hl, dictSet, lookup_cons]
  · intro name hname tv vso
    rcases hname with rfl | rfl <;>
      simp [parseInsights, extractEntry, dictSet, lookup_cons]
  · intro name hname vs
    rcases hname with rfl | rfl <;> cases vs with
    | nil => simp [parseInsights, extractEntry]
    | cons a as => simp [parseInsights, extractEntry, dictSet, lookup_cons]
  · intro tv
    simp [parseInsights, extractEntry]

theorem metric_extraction_policy_witness :
    ("likes" = "likes" ∨ "likes" = "replies") ∧
    (parseInsights ⟨some [⟨"likes", none, some (some 3)⟩]⟩).lookup "likes"
      = some 3 :=
  ⟨Or.inl rfl,
   metric_extraction_policy.2.1 "likes" (Or.inl rfl) (some 3) none⟩

/-- Claim C5 counterexample: with a successful fetch (the example response)
and a failing `append_row`, the Insight Logger still exits 0 while no row
was appended — refuting "exit code 0 iff both the fetch and the append
succeed". -/
theorem append_failure_exit_zero_cex :
    (loggerMain (some exampleResp) ⟨"2025-01-01", "12:00:00"⟩ "pid" "acct"
        "text" true true true false).exitCode = 0 ∧
    (loggerMain (some exampleResp) ⟨"2025-01-01", "12:00:00"⟩ "pid" "acct"
        "text" true true true false).appendedRows = [] := by decide

/-- Claim C5 as amended: the Insight Logger exits 0 iff the fetch succeeds
with a non-empty parsed mapping and the spreadsheet client, sheet and
worksheet are all obtained — the final `append_row`'s own failure is
swallowed, so it does not affect the exit code; and whenever the fetch
fails or returns no usable data (empty parse), no row is appended and the
exit code is 1. -/
theorem logger_exit_code_amended (fetch : Option InsightsResponse)
    (now : Timestamp) (pid acct content : String)
    (clientOk sheetOk wsOk appendOk : Bool) :
    ((loggerMain fetch now pid acct content clientOk sheetOk wsOk
        appendOk).exitCode = 0 ↔
      (∃ resp, fetch = some resp ∧ (parseInsights resp).isEmpty = false ∧
        clientOk = true ∧ sheetOk = true ∧ wsOk = true)) ∧
    ((get_post_insights fetch = none ∨ get_post_insights fetch = some []) →
      (loggerMain fetch now pid acct content clientOk sheetOk wsOk
        appendOk).appendedRows = [] ∧
      (loggerMain fetch now pid acct content clientOk sheetOk wsOk
        appendOk).exitCode = 1) := by
  cases fetch with
  | none => simp [loggerMain, get_post_insights]
  | some resp =>
    cases hpe : (parseInsights resp).isEmpty with
    | true =>
      have hnil : parseInsights resp = [] := by
        simpa using hpe
      constructor
      · simp [loggerMain, get_post_insights, hpe, hnil]
      · intro _
        simp [loggerMain, get_post_insights, hpe]
    | false =>
      have hne : parseInsights resp ≠ [] := by simpa using hpe
      constructor
      · cases clientOk <;> cases sheetOk <;> cases wsOk <;>
          simp [loggerMain, get_post_insights, hpe, hne]
      · intro h
        rcases h with h | h
        · simp [get_post_insights] at h
        · simp [get_post_insights] at h
          rw [h] at hpe
          simp at hpe

theorem logger_exit_code_amended_witness :
    (get_post_insights (none : Option InsightsResponse) = none ∨
      get_post_insights (none : Option InsightsResponse) = some []) ∧
    (loggerMain none ⟨"2025-01-01", "12:00:00"⟩ "p" "a" "c" true true true
        true).appendedRows = [] ∧
    (loggerMain none ⟨"2025-01-01", "12:00:00"⟩ "p" "a" "c" true true true
        true).exitCode = 1 :=
  ⟨Or.inl rfl,
   (logger_exit_code_amended none ⟨"2025-01-01", "12:00:00"⟩ "p" "a" "c"
      true true true true).2 (Or.inl rfl)⟩

/-- Claim C8: every appended log row has its cells in exactly the order
identifier, account, content, views, likes, replies, date, time, with the
date and time cells both rendered from the single captured timestamp
`now`. -/
theorem log_row_order (resp : InsightsResponse) (now : Timestamp)
    (pid acct content : String) (h : (parseInsights resp).isEmpty = false) :
    (loggerMain (some resp) now pid acct content true true true
        true).appendedRows =
      [[Cell.str pid, Cell.str acct, Cell.str content,
        Cell.nat (dictGetD (parseInsights resp) "views"),
        Cell.nat (dictGetD (parseInsights resp) "likes"),
        Cell.nat (dictGetD (parseInsights resp) "replies"),
        Cell.str now.date, Cell.str now.time]] := by
  simp [loggerMain, get_post_insights, h, data_row]

theorem log_row_order_witness :
    (parseInsights exampleResp).isEmpty = false ∧
    (loggerMain (some exampleResp) ⟨"2025-01-01", "12:00:00"⟩ "p" "a" "c"
        true true true true).appendedRows =
      [[Cell.str "p", Cell.str "a", Cell.str "c", Cell.nat 12, Cell.nat 3,
        Cell.nat 0, Cell.str "2025-01-01", Cell.str "12:00:00"]] :=
  ⟨by decide,
   log_row_order exampleResp ⟨"2025-01-01", "12:00:00"⟩ "p" "a" "c"
     (by decide)⟩
